import Mathlib

/-!
# Verification of the gims AI commit-message pipeline

Shallow embedding of the core generation pipeline of the `gims` CLI
(repository `s41r4j/gims`), covering:

* `src/bin/lib/ai/providers.js` — `AIProviderManager`: provider resolution,
  provider chain construction, response cache (`getCacheKey`, `getFromCache`,
  `setCache`), the generation entry point `generateCommitMessage`, the
  message normalizer `cleanCommitMessage`, and the deterministic local
  heuristic `generateLocalHeuristic`;
* `src/bin/gims.js` — `estimateTokens` and the content-reduction ladder
  inside its `generateCommitMessage` (lines 51–100).

Strings are modelled as Lean `String`/`List Char`; JavaScript regular
expression replacements are translated into explicit recursive functions on
character lists following the exact leftmost, non-overlapping, greedy /
lazy semantics of the corresponding regexes.  Network calls to language
model backends are abstracted as an oracle argument
`Provider → String → String → Except String String` (provider, model,
prompt ↦ raw text or thrown error); everything else is executable.
-/

namespace Gims

/-! ## JavaScript string primitives -/

/-- Characters matched by JavaScript regex `\s` (also the set trimmed by
`String.prototype.trim`, which removes WhiteSpace ∪ LineTerminator). -/
def isJsWs (c : Char) : Bool :=
  c = ' ' || c = '\t' || c = '\n' || c = '\r' ||
  c.val = 0x0b || c.val = 0x0c || c.val = 0xa0 || c.val = 0xfeff ||
  c.val = 0x1680 || (0x2000 ≤ c.val && c.val ≤ 0x200a) ||
  c.val = 0x2028 || c.val = 0x2029 || c.val = 0x202f || c.val = 0x205f ||
  c.val = 0x3000

/-- Line terminators: the characters NOT matched by `.` in a JavaScript
regex without the `s` flag. -/
def isLineTerm (c : Char) : Bool :=
  c = '\n' || c = '\r' || c.val = 0x2028 || c.val = 0x2029

/-- `listStartsWith pat l` : `l` starts with `pat` (JS `String.startsWith`). -/
def listStartsWith : List Char → List Char → Bool
  | [], _ => true
  | _ :: _, [] => false
  | p :: ps, c :: cs => p = c && listStartsWith ps cs

/-- JS `str.split('\n')`: split at every newline, keeping empty pieces. -/
def splitOnNl : List Char → List (List Char)
  | [] => [[]]
  | c :: cs =>
    if c = '\n' then [] :: splitOnNl cs
    else
      match splitOnNl cs with
      | [] => [[c]]
      | l :: ls => (c :: l) :: ls

/-- JS `Array.prototype.join('\n')`. -/
def joinNl : List String → String
  | [] => ""
  | [x] => x
  | x :: xs => x ++ "\n" ++ joinNl xs

/-- JS `Array.prototype.join(', ')`. -/
def joinComma : List String → String
  | [] => ""
  | [x] => x
  | x :: xs => x ++ ", " ++ joinComma xs

/-- Worker for `countOccur`: `skip` counts characters of the last match
still to be passed over (matches do not overlap). -/
def countOccurAux (pat : List Char) : List Char → Nat → Nat
  | [], _ => 0
  | _ :: cs, Nat.succ k => countOccurAux pat cs k
  | c :: cs, 0 =>
    if listStartsWith pat (c :: cs) then 1 + countOccurAux pat cs (pat.length - 1)
    else countOccurAux pat cs 0

/-- Count of leftmost non-overlapping occurrences of a nonempty pattern:
JS `(s.match(/pat/g) || []).length`. -/
def countOccur (pat : List Char) (l : List Char) : Nat := countOccurAux pat l 0

/-- JS `String.prototype.includes`. -/
def containsSub (pat : List Char) : List Char → Bool
  | [] => pat.isEmpty
  | c :: cs => listStartsWith pat (c :: cs) || containsSub pat cs

/-- JS `String.prototype.trim` (both ends; `isJsWs` is exactly the trimmed
character set). -/
def jsTrim (l : List Char) : List Char :=
  ((l.dropWhile isJsWs).reverse.dropWhile isJsWs).reverse

/-! ## Message normalizer (`AIProviderManager.cleanCommitMessage`)

Each `.replace(regex, …)` of the source is one scanning pass below, in the
same order as the source applies them.  Every pass is written as a
structural recursion that advances one character per step; `skip` counts
characters that belong to an already-processed match and are consumed
without further inspection (the regex engine resumes scanning only after
the end of the previous match). -/

/-- Scan for the closing ` ``` ` of a fenced block: returns the remainder
after it, or `none` when no triple backtick occurs (the lazy `[\s\S]*?`
matches up to the nearest closing fence). -/
def dropFenceEnd : List Char → Option (List Char)
  | [] => none
  | c :: cs =>
    if listStartsWith ['`', '`', '`'] (c :: cs) then some (cs.drop 2)
    else dropFenceEnd cs

/-- Worker for `removeFenced`. -/
def removeFencedAux : List Char → Nat → List Char
  | [], _ => []
  | _ :: cs, Nat.succ k => removeFencedAux cs k
  | c :: cs, 0 =>
    if listStartsWith ['`', '`', '`'] (c :: cs) then
      match dropFenceEnd (cs.drop 2) with
      | some rest => removeFencedAux cs ((c :: cs).length - rest.length - 1)
      | none => c :: cs
    else c :: removeFencedAux cs 0

/-- `.replace(/```[\s\S]*?```/g, '')` — remove fenced code blocks.  An
opening fence with no closing fence matches nothing (and then no later
match is possible, since no triple backtick remains). -/
def removeFenced (l : List Char) : List Char := removeFencedAux l 0

/-- Scan for the closing backtick of inline code: `(content, remainder)`. -/
def splitAtTick : List Char → Option (List Char × List Char)
  | [] => none
  | c :: cs =>
    if c = '`' then some ([], cs)
    else (splitAtTick cs).map (fun p => (c :: p.1, p.2))

/-- Worker for `removeInline`. -/
def removeInlineAux : List Char → Nat → List Char
  | [], _ => []
  | _ :: cs, Nat.succ k => removeInlineAux cs k
  | c :: cs, 0 =>
    if c = '`' then
      match splitAtTick cs with
      | some (mid, rest) =>
        if mid.isEmpty then c :: removeInlineAux cs 0
        else mid ++ removeInlineAux cs ((c :: cs).length - rest.length - 1)
      | none => c :: removeInlineAux cs 0
    else c :: removeInlineAux cs 0

/-- `.replace(/`([^`]+)`/g, '$1')` — unwrap inline code spans (the span
must be nonempty; an immediately-following backtick is not a match, so the
scan resumes one position later, exactly like the regex engine). -/
def removeInline (l : List Char) : List Char := removeInlineAux l 0

/-- Split after the first line terminator (LF, CR, U+2028, U+2029):
`(prefix including the terminator, rest)`.  With the `m` flag, `^` matches
right after every LineTerminator character, so this finds the next
line-start position. -/
def breakAtLineTerm : List Char → Option (List Char × List Char)
  | [] => none
  | c :: cs =>
    if isLineTerm c then some ([c], cs)
    else (breakAtLineTerm cs).map (fun p => (c :: p.1, p.2))

theorem length_dropWhile_le (p : Char → Bool) (l : List Char) :
    (l.dropWhile p).length ≤ l.length := by
  induction l with
  | nil => simp
  | cons c cs ih =>
    rw [List.dropWhile_cons]
    split
    · simp; omega
    · simp

/-- Worker for `stripBullets`.  With the `m` flag, `^` matches at the
string start and right after every LineTerminator (LF, CR, U+2028,
U+2029); a match of `^\s*[-*+]\s*` may span line breaks through its
`\s*` parts.  The `Bool` records whether the current scan position is a
line-start position.  After a failed attempt at a line start the scan
resumes at the next line start (`breakAtLineTerm`); after a successful
match it resumes right after the match, which is a line start exactly when
the last consumed character was a line terminator. -/
def stripBulletsAux : List Char → Nat → Bool → List Char
  | [], _, _ => []
  | _ :: cs, Nat.succ k, fl => stripBulletsAux cs k fl
  | c :: cs, 0, false => c :: stripBulletsAux cs 0 (isLineTerm c)
  | c :: cs, 0, true =>
    match (c :: cs).dropWhile isJsWs with
    | d :: rest =>
      if d = '-' || d = '*' || d = '+' then
        let ws2 := rest.takeWhile isJsWs
        let r2 := rest.dropWhile isJsWs
        stripBulletsAux cs ((c :: cs).length - r2.length - 1) (isLineTerm (ws2.getLastD 'x'))
      else
        match breakAtLineTerm (c :: cs) with
        | some (pre, _) => pre ++ stripBulletsAux cs (pre.length - 1) true
        | none => c :: cs
    | [] =>
      match breakAtLineTerm (c :: cs) with
      | some (pre, _) => pre ++ stripBulletsAux cs (pre.length - 1) true
      | none => c :: cs

/-- `.replace(/^\s*[-*+]\s*/gm, '')` — strip list markers at line starts. -/
def stripBullets (l : List Char) : List Char := stripBulletsAux l 0 true

/-- Worker for `stripNumbers`: marker is a nonempty digit run followed by a
literal dot (same line-start discipline as `stripBulletsAux`). -/
def stripNumbersAux : List Char → Nat → Bool → List Char
  | [], _, _ => []
  | _ :: cs, Nat.succ k, fl => stripNumbersAux cs k fl
  | c :: cs, 0, false => c :: stripNumbersAux cs 0 (isLineTerm c)
  | c :: cs, 0, true =>
    let r1 := (c :: cs).dropWhile isJsWs
    let ds := r1.takeWhile Char.isDigit
    match r1.dropWhile Char.isDigit with
    | '.' :: rest =>
      if ds.isEmpty then
        match breakAtLineTerm (c :: cs) with
        | some (pre, _) => pre ++ stripNumbersAux cs (pre.length - 1) true
        | none => c :: cs
      else
        let ws2 := rest.takeWhile isJsWs
        let r2 := rest.dropWhile isJsWs
        stripNumbersAux cs ((c :: cs).length - r2.length - 1) (isLineTerm (ws2.getLastD 'x'))
    | _ =>
      match breakAtLineTerm (c :: cs) with
      | some (pre, _) => pre ++ stripNumbersAux cs (pre.length - 1) true
      | none => c :: cs

/-- `.replace(/^\s*\d+\.\s*/gm, '')` — strip numbered-list markers. -/
def stripNumbers (l : List Char) : List Char := stripNumbersAux l 0 true

/-- Worker for `stripHashes`. -/
def stripHashesAux : List Char → Nat → Bool → List Char
  | [], _, _ => []
  | _ :: cs, Nat.succ k, fl => stripHashesAux cs k fl
  | c :: cs, 0, false => c :: stripHashesAux cs 0 (isLineTerm c)
  | c :: cs, 0, true =>
    match (c :: cs).dropWhile isJsWs with
    | d :: rest =>
      if d = '#' then
        let rest2 := rest.dropWhile (fun e => e = '#')
        let ws2 := rest2.takeWhile isJsWs
        let r2 := rest2.dropWhile isJsWs
        stripHashesAux cs ((c :: cs).length - r2.length - 1) (isLineTerm (ws2.getLastD 'x'))
      else
        match breakAtLineTerm (c :: cs) with
        | some (pre, _) => pre ++ stripHashesAux cs (pre.length - 1) true
        | none => c :: cs
    | [] =>
      match breakAtLineTerm (c :: cs) with
      | some (pre, _) => pre ++ stripHashesAux cs (pre.length - 1) true
      | none => c :: cs

/-- `.replace(/^\s*#+\s*/gm, '')` — strip heading markers. -/
def stripHashes (l : List Char) : List Char := stripHashesAux l 0 true

/-- Scan for the closing `**` of bold markup; the lazy `(.*?)` cannot cross
a line terminator. -/
def findBoldClose : List Char → Option (List Char × List Char)
  | [] => none
  | c :: cs =>
    if listStartsWith ['*', '*'] (c :: cs) then some ([], cs.drop 1)
    else if isLineTerm c then none
    else (findBoldClose cs).map (fun p => (c :: p.1, p.2))

/-- Worker for `removeBold`. -/
def removeBoldAux : List Char → Nat → List Char
  | [], _ => []
  | _ :: cs, Nat.succ k => removeBoldAux cs k
  | c :: cs, 0 =>
    if listStartsWith ['*', '*'] (c :: cs) then
      match findBoldClose (cs.drop 1) with
      | some (mid, rest) => mid ++ removeBoldAux cs ((c :: cs).length - rest.length - 1)
      | none => c :: removeBoldAux cs 0
    else c :: removeBoldAux cs 0

/-- `.replace(/\*\*(.*?)\*\*/g, '$1')` — unwrap bold markup.  When the
opening `**` has no closing pair before a line terminator, the regex engine
moves on by a single position. -/
def removeBold (l : List Char) : List Char := removeBoldAux l 0

/-- Scan for the closing `*` of italic markup. -/
def findStarClose : List Char → Option (List Char × List Char)
  | [] => none
  | c :: cs =>
    if c = '*' then some ([], cs)
    else if isLineTerm c then none
    else (findStarClose cs).map (fun p => (c :: p.1, p.2))

/-- Worker for `removeItalic`. -/
def removeItalicAux : List Char → Nat → List Char
  | [], _ => []
  | _ :: cs, Nat.succ k => removeItalicAux cs k
  | c :: cs, 0 =>
    if c = '*' then
      match findStarClose cs with
      | some (mid, rest) => mid ++ removeItalicAux cs ((c :: cs).length - rest.length - 1)
      | none => c :: removeItalicAux cs 0
    else c :: removeItalicAux cs 0

/-- `.replace(/\*(.*?)\*/g, '$1')` — unwrap italic markup. -/
def removeItalic (l : List Char) : List Char := removeItalicAux l 0

/-- Code points removed by `.replace(/[\u{1F300}-\u{1FAFF}]/gu, '')`. -/
def isEmoji (c : Char) : Bool := 0x1F300 ≤ c.val && c.val ≤ 0x1FAFF

/-- Emoji removal pass. -/
def removeEmoji (l : List Char) : List Char := l.filter (fun c => !isEmoji c)

/-- Worker for `collapseTabCr`. -/
def collapseTabCrAux : List Char → Nat → List Char
  | [], _ => []
  | _ :: cs, Nat.succ k => collapseTabCrAux cs k
  | c :: cs, 0 =>
    if c = '\t' || c = '\r' then
      let r := cs.dropWhile (fun d => d = '\t' || d = '\r')
      ' ' :: collapseTabCrAux cs (cs.length - r.length)
    else c :: collapseTabCrAux cs 0

/-- `.replace(/[\t\r]+/g, ' ')` — collapse tab/carriage-return runs to one
space. -/
def collapseTabCr (l : List Char) : List Char := collapseTabCrAux l 0

/-- Worker for `collapseMultiWs`. -/
def collapseMultiWsAux : List Char → Nat → List Char
  | [], _ => []
  | _ :: cs, Nat.succ k => collapseMultiWsAux cs k
  | c :: cs, 0 =>
    if isJsWs c && (match cs with | d :: _ => isJsWs d | [] => false) then
      let r := cs.dropWhile isJsWs
      ' ' :: collapseMultiWsAux cs (cs.length - r.length)
    else c :: collapseMultiWsAux cs 0

/-- `.replace(/\s{2,}/g, ' ')` — collapse runs of two or more whitespace
characters to a single space (runs of exactly one are untouched). -/
def collapseMultiWs (l : List Char) : List Char := collapseMultiWsAux l 0

/-- Characters stripped from the subject end by `.replace(/[\s:,.!;]+$/g, '')`. -/
def isTrailPunct (c : Char) : Bool :=
  isJsWs c || c = ':' || c = ',' || c = '.' || c = '!' || c = ';'

/-- Strip the maximal trailing run of whitespace/punctuation characters. -/
def stripTrailing (l : List Char) : List Char :=
  (l.reverse.dropWhile isTrailPunct).reverse

/-- `Array.prototype.join('\n')` on character lists. -/
def joinLinesNl : List (List Char) → List Char
  | [] => []
  | [x] => x
  | x :: xs => x ++ '\n' :: joinLinesNl xs

/-- Options consumed by the normalizer (`options.body` is the only field
the source reads). -/
structure CleanOpts where
  body : Bool := false
deriving DecidableEq

/-- `AIProviderManager.cleanCommitMessage` (providers.js lines 197–224):
markdown stripping passes in source order, then line splitting, subject
derivation with whitespace collapsing and trailing-punctuation stripping,
the `'Update project code'` default for an empty subject, and the optional
body assembly. -/
def cleanCommitMessage (message : String) (opts : CleanOpts) : String :=
  if message = "" then "Update project code"
  else
    let cleaned := jsTrim <| collapseTabCr <| removeEmoji <| removeItalic <|
      removeBold <| stripHashes <| stripNumbers <| stripBullets <|
      removeInline <| removeFenced message.data
    let lines := ((splitOnNl cleaned).map jsTrim).filter (fun x => !x.isEmpty)
    let subject0 := jsTrim (stripTrailing (collapseMultiWs (lines.headD [])))
    let subject := if subject0.isEmpty then "Update project code".data else subject0
    if !opts.body then String.mk subject
    else
      let bodyLines := (lines.drop 1).filter (fun x => !x.isEmpty)
      let bodyText := jsTrim (joinLinesNl bodyLines)
      if bodyText.isEmpty then String.mk subject
      else String.mk (subject ++ '\n' :: '\n' :: bodyText)

/-! ## Provider resolution and chain (`AIProviderManager`) -/

/-- Backend identifiers.  The source uses the strings `'gemini'`,
`'openai'`, `'groq'`, `'local'` and `'none'`. -/
inductive Provider where
  | gemini
  | openai
  | groq
  | localHeuristic
  | none
deriving DecidableEq, Repr

/-- The credential environment variables each backend checks
(`GEMINI_API_KEY`, `OPENAI_API_KEY`, `GROQ_API_KEY`): `true` means the
variable is set to a non-empty (truthy) value. -/
structure Env where
  geminiKey : Bool
  openaiKey : Bool
  groqKey : Bool
deriving DecidableEq, Repr

/-- `AIProviderManager.resolveProvider` (providers.js lines 16–27). -/
def resolveProvider (env : Env) (preference : String) : Provider :=
  if preference = "none" then Provider.none
  else if preference = "openai" then
    (if env.openaiKey then Provider.openai else Provider.none)
  else if preference = "gemini" then
    (if env.geminiKey then Provider.gemini else Provider.none)
  else if preference = "groq" then
    (if env.groqKey then Provider.groq else Provider.none)
  else if env.geminiKey then Provider.gemini
  else if env.openaiKey then Provider.openai
  else if env.groqKey then Provider.groq
  else Provider.none

/-- `AIProviderManager.getDefaultModel` (providers.js lines 29–36). -/
def getDefaultModel (p : Provider) : String :=
  match p with
  | Provider.gemini => "gemini-3-flash-preview"
  | Provider.openai => "gpt-5.2-2025-12-11"
  | Provider.groq => "groq/compound"
  | _ => ""

/-- Worker for `dedupFirst`: keep the first occurrence of each element. -/
def dedupFirstAux (seen : List Provider) : List Provider → List Provider
  | [] => []
  | p :: ps =>
    if p ∈ seen then dedupFirstAux seen ps
    else p :: dedupFirstAux (p :: seen) ps

/-- `[...new Set(list)]` — deduplicate keeping first occurrences. -/
def dedupFirst (l : List Provider) : List Provider := dedupFirstAux [] l

/-- `AIProviderManager.buildProviderChain` (providers.js lines 167–181). -/
def buildProviderChain (env : Env) (preferred : String) : List Provider :=
  let available : List Provider :=
    if preferred ≠ "auto" ∧ preferred ≠ "none" then
      match resolveProvider env preferred with
      | Provider.none => []
      | p => [p]
    else if preferred = "auto" then
      (if env.geminiKey then [Provider.gemini] else []) ++
      (if env.openaiKey then [Provider.openai] else []) ++
      (if env.groqKey then [Provider.groq] else [])
    else []
  dedupFirst (available ++ [Provider.localHeuristic])

/-- Recognized generation options (`GenerationOptions`).  `temperature` and
`maxTokens` only parameterize the network request itself, which is
abstracted by the backend oracle, so they are not modelled. -/
structure GenOptions where
  provider : String := "auto"
  model : String := ""
  conventional : Bool := false
  body : Bool := false
  verbose : Bool := false
deriving DecidableEq

/-- `AIProviderManager.buildPrompt` (providers.js lines 183–195). -/
def buildPrompt (diff : String) (conventional body : Bool) : String :=
  let style :=
    if conventional then
      "Use Conventional Commits format (e.g., feat:, fix:, chore:) for the subject."
    else "Subject must be a single short line."
  let bodyInstr :=
    if body then
      "Provide a short subject line followed by an optional body separated by a blank line."
    else "Return only a short subject line without extra quotes."
  "Write a concise git commit message for these changes:\n" ++ diff ++ "\n\n" ++
    style ++ " " ++ bodyInstr

/-- `subject.charAt(0).toUpperCase() + subject.slice(1)`. -/
def capitalizeFirst (s : String) : String :=
  match s.data with
  | [] => ""
  | c :: cs => String.mk (c.toUpper :: cs)

/-- `AIProviderManager.generateLocalHeuristic` (providers.js lines 226–254):
a deterministic classifier over the diff text — counts of lines starting
with `'+'` / `'-'`, the number of `diff --git` headers, and keyword
probes. -/
def generateLocalHeuristic (diff : String) (opts : GenOptions) : String :=
  let lines := splitOnNl diff.data
  let additions := (lines.filter (fun l => listStartsWith ['+'] l)).length
  let deletions := (lines.filter (fun l => listStartsWith ['-'] l)).length
  let files := countOccur "diff --git".data diff.data
  let td : String × String :=
    if additions > deletions * 2 then
      ("feat", if files = 1 then "add new functionality"
               else "add features to " ++ toString files ++ " files")
    else if deletions > additions * 2 then
      ("chore", if files = 1 then "remove unused code"
                else "clean up " ++ toString files ++ " files")
    else if containsSub "test".data diff.data || containsSub "spec".data diff.data then
      ("test", "update tests")
    else if containsSub "README".data diff.data || containsSub "doc".data diff.data then
      ("docs", "update documentation")
    else ("chore", "update files")
  if opts.conventional then td.1 ++ ": " ++ td.2 else capitalizeFirst td.2

/-! ## Response cache -/

/-- The data hashed by `AIProviderManager.getCacheKey` (providers.js lines
38–42): the first 1000 characters of the content plus the serialized
`{ conventional, body }` options.  The source md5-hashes a deterministic
JSON rendering of this record; since every claim depends only on equality
of keys induced by equality of the hashed data, the key is modelled as the
data itself. -/
structure CacheKeyData where
  promptPrefix : String
  conventional : Bool
  body : Bool
deriving DecidableEq, Repr

/-- `getCacheKey(prompt, options)` with `options = { conventional, body }`. -/
def getCacheKey (prompt : String) (conventional body : Bool) : CacheKeyData :=
  ⟨String.mk (prompt.data.take 1000), conventional, body⟩

/-- A cache value: `{ result, usedLocal, timestamp }`. -/
structure CacheEntry where
  result : String
  usedLocal : Bool
  timestamp : Nat
deriving DecidableEq, Repr

/-- The JS `Map` backing the cache, as an insertion-ordered association
list: `Map.prototype.set` updates an existing key in place (keeping its
original position) or appends a new key at the end; iteration order is
insertion order. -/
abbrev Cache := List (CacheKeyData × CacheEntry)

/-- `Map.prototype.get`. -/
def mapGet (m : Cache) (k : CacheKeyData) : Option CacheEntry :=
  match m with
  | [] => Option.none
  | (k', v) :: t => if k' = k then some v else mapGet t k

/-- `Map.prototype.set`: update in place, else append. -/
def mapSet (m : Cache) (k : CacheKeyData) (v : CacheEntry) : Cache :=
  match m with
  | [] => [(k, v)]
  | (k', v') :: t => if k' = k then (k', v) :: t else (k', v') :: mapSet t k v

/-- `Map.prototype.delete` (a JS map holds at most one entry per key, so
removing the first match is exact). -/
def mapDelete (m : Cache) (k : CacheKeyData) : Cache :=
  match m with
  | [] => []
  | (k', v') :: t => if k' = k then t else (k', v') :: mapDelete t k

/-- Configuration consumed by the cache (`config.cacheEnabled`). -/
structure Config where
  cacheEnabled : Bool
deriving DecidableEq

/-- `this.maxCacheSize = 100` (providers.js line 13). -/
def maxCacheSize : Nat := 100

/-- `AIProviderManager.getFromCache` (providers.js lines 44–47). -/
def getFromCache (cfg : Config) (cache : Cache) (k : CacheKeyData) : Option CacheEntry :=
  if !cfg.cacheEnabled then Option.none else mapGet cache k

/-- `AIProviderManager.setCache` (providers.js lines 49–62): when at or
above capacity, evict the first key in iteration order
(`this.cache.keys().next().value`), then insert with `Date.now()` as the
timestamp. -/
def setCache (cfg : Config) (cache : Cache) (k : CacheKeyData) (result : String)
    (usedLocal : Bool) (now : Nat) : Cache :=
  if !cfg.cacheEnabled then cache
  else
    let c1 :=
      if cache.length ≥ maxCacheSize then
        match cache with
        | [] => cache
        | (k0, _) :: _ => mapDelete cache k0
      else cache
    mapSet c1 k ⟨result, usedLocal, now⟩

/-! ## Generation entry point -/

/-- A backend network call, abstracted: provider, resolved model
identifier, prompt ↦ trimmed raw text, or a thrown error.  This stands for
`generateWithGemini` / `generateWithOpenAI` / `generateWithGroq`. -/
abbrev Oracle := Provider → String → String → Except String String

/-- The generated message together with the `usedLocal` flag. -/
structure GenResult where
  message : String
  usedLocal : Bool
deriving DecidableEq, Repr

/-- `AIProviderManager.generateWithProvider` (providers.js lines 64–81):
dispatch on the provider with `model || getDefaultModel(provider)`; the
`default:` branch throws `Unknown provider`. -/
def generateWithProvider (oracle : Oracle) (p : Provider) (prompt : String)
    (opts : GenOptions) : Except String String :=
  match p with
  | Provider.gemini | Provider.openai | Provider.groq =>
    oracle p (if opts.model = "" then getDefaultModel p else opts.model) prompt
  | _ => Except.error "Unknown provider"

/-- The `for (const provider of providerChain)` loop of
`generateCommitMessage` (providers.js lines 138–165), including the final
`'Update project files'` fallback after the loop.  Returns the result, the
cache after the write-through, and the list of backends actually invoked
(in order; the local heuristic and cache hits invoke no backend). -/
def runChain (cfg : Config) (oracle : Oracle) (now : Nat) (diff : String)
    (opts : GenOptions) (key : CacheKeyData) :
    List Provider → Cache → GenResult × Cache × List Provider
  | [], cache =>
    (⟨"Update project files", true⟩,
      setCache cfg cache key "Update project files" true now, [])
  | Provider.localHeuristic :: _, cache =>
    let result := generateLocalHeuristic diff opts
    (⟨result, true⟩, setCache cfg cache key result true now, [])
  | p :: rest, cache =>
    match generateWithProvider oracle p (buildPrompt diff opts.conventional opts.body) opts with
    | Except.ok text =>
      let cleaned := cleanCommitMessage text ⟨opts.body⟩
      (⟨cleaned, false⟩, setCache cfg cache key cleaned false now, [p])
    | Except.error _ =>
      let out := runChain cfg oracle now diff opts key rest cache
      (out.1, out.2.1, p :: out.2.2)

/-- `AIProviderManager.generateCommitMessage` (providers.js lines 120–165):
read-through cache with a one-hour freshness window, then the provider
chain.  `now` stands for `Date.now()`. -/
def generateCommitMessage (cfg : Config) (env : Env) (oracle : Oracle) (now : Nat)
    (diff : String) (opts : GenOptions) (cache : Cache) :
    GenResult × Cache × List Provider :=
  let key := getCacheKey diff opts.conventional opts.body
  match getFromCache cfg cache key with
  | some e =>
    if now - e.timestamp < 3600000 then (⟨e.result, e.usedLocal⟩, cache, [])
    else runChain cfg oracle now diff opts key (buildProviderChain env opts.provider) cache
  | Option.none =>
    runChain cfg oracle now diff opts key (buildProviderChain env opts.provider) cache

/-! ## Content reducer (`src/bin/gims.js` lines 46–100) -/

/-- `estimateTokens` (gims.js lines 46–48): `Math.ceil(text.length / 4)`. -/
def estimateTokens (s : String) : Nat := (s.length + 3) / 4

/-- `MAX_TOKENS = 100000` (gims.js line 52). -/
def MAX_TOKENS : Nat := 100000

/-- `MAX_CHARS = MAX_TOKENS * 4` (gims.js line 53). -/
def MAX_CHARS : Nat := MAX_TOKENS * 4

/-- Which tier of the reduction ladder produced the content. -/
inductive Strategy where
  | full
  | summary
  | status
  | truncated
  | fallback
deriving DecidableEq, Repr

/-- One record of `git.diffSummary().files`. -/
structure DiffFileSummary where
  file : String
  insertions : Nat
  deletions : Nat

/-- The fields of `git.status()` the reducer reads (`files` only through
its length). -/
structure StatusResult where
  modified : List String
  created : List String
  deleted : List String
  filesLen : Nat

/-- `summary.files.map(f => ...).join('\n')` (gims.js lines 63–65). -/
def summaryContent (files : List DiffFileSummary) : String :=
  joinNl (files.map (fun f =>
    f.file ++ ": +" ++ toString f.insertions ++ " -" ++ toString f.deletions))

/-- The status listing (gims.js lines 76–89). -/
def statusContent (st : StatusResult) : String :=
  let modified := st.modified.take 10
  let created := st.created.take 10
  let deleted := st.deleted.take 10
  let base := joinNl (([
    (if modified.length > 0 then "Modified: " ++ joinComma modified else ""),
    (if created.length > 0 then "Added: " ++ joinComma created else ""),
    (if deleted.length > 0 then "Deleted: " ++ joinComma deleted else "")
  ]).filter (fun s => s ≠ ""))
  if st.filesLen > 30 then
    base ++ "\n... and " ++ toString (st.filesLen - 30) ++ " more files"
  else base

/-- The literal appended by the truncation tier. -/
def truncMarker : String := "\n... (truncated)"

/-- The reduction ladder of `generateCommitMessage` (gims.js lines 51–100):
full → summary → status → truncation, with `fallback` on repository
errors (modelled as `Except.error` results of the two facade queries). -/
def reduceContent (rawDiff : String) (summaryRes : Except Unit (List DiffFileSummary))
    (statusRes : Except Unit StatusResult) : String × Strategy :=
  let step1 : String × Strategy :=
    if estimateTokens rawDiff > MAX_TOKENS then
      match summaryRes with
      | Except.ok files => (summaryContent files, Strategy.summary)
      | Except.error _ => ("Large changes across multiple files", Strategy.fallback)
    else (rawDiff, Strategy.full)
  let step2 : String × Strategy :=
    if step1.2 = Strategy.summary ∧ estimateTokens step1.1 > MAX_TOKENS then
      match statusRes with
      | Except.ok st => (statusContent st, Strategy.status)
      | Except.error _ => ("Large changes across multiple files", Strategy.fallback)
    else step1
  if estimateTokens step2.1 > MAX_TOKENS then
    (String.mk (step2.1.data.take (MAX_CHARS - 1000)) ++ truncMarker, Strategy.truncated)
  else step2

/-! ## Shared lemmas -/

theorem length_mk (l : List Char) : (String.mk l).length = l.length := rfl

theorem mk_data (s : String) : String.mk s.data = s := rfl

theorem string_length_append (s t : String) : (s ++ t).length = s.length + t.length := by
  show (s.data ++ t.data).length = s.data.length + t.data.length
  exact List.length_append s.data t.data

/-- A content estimated strictly over the token budget has strictly more
than `MAX_CHARS` characters. -/
theorem length_of_over_budget {s : String} (h : estimateTokens s > MAX_TOKENS) :
    s.length > MAX_CHARS := by
  unfold estimateTokens MAX_TOKENS at h
  unfold MAX_CHARS MAX_TOKENS
  omega

/-! ## C4 -/

/-- C4: for every raw diff whose estimated token count (ceiling of character
length divided by 4) does not exceed the 100,000-token budget, the reducer
selects strategy `full` and passes the raw diff onward verbatim. -/
theorem claim4_reducer_full_verbatim (rawDiff : String)
    (summaryRes : Except Unit (List DiffFileSummary))
    (statusRes : Except Unit StatusResult)
    (h : estimateTokens rawDiff ≤ MAX_TOKENS) :
    reduceContent rawDiff summaryRes statusRes = (rawDiff, Strategy.full) := by
  have h1 : ¬ estimateTokens rawDiff > MAX_TOKENS := by omega
  unfold reduceContent
  simp [h1]

/-- Witness for C4 at a concrete small diff. -/
theorem claim4_witness :
    reduceContent "fix typo" (Except.error ()) (Except.error ()) =
      ("fix typo", Strategy.full) :=
  claim4_reducer_full_verbatim "fix typo" (Except.error ()) (Except.error ())
    (by decide)

/-! ## C5 -/

/-- C5: whenever even the status listing still exceeds the budget (with the
raw diff and the summary over budget as well, so that the ladder reaches
the status tier), the reducer returns strategy `truncated` and content of
length exactly `(MAX_TOKENS * 4 − 1000) + truncMarker.length`. -/
theorem claim5_reducer_truncated_length (rawDiff : String)
    (files : List DiffFileSummary) (st : StatusResult)
    (h1 : estimateTokens rawDiff > MAX_TOKENS)
    (h2 : estimateTokens (summaryContent files) > MAX_TOKENS)
    (h3 : estimateTokens (statusContent st) > MAX_TOKENS) :
    (reduceContent rawDiff (Except.ok files) (Except.ok st)).2 = Strategy.truncated ∧
    (reduceContent rawDiff (Except.ok files) (Except.ok st)).1.length =
      (MAX_TOKENS * 4 - 1000) + truncMarker.length := by
  have hlen : (statusContent st).length > MAX_CHARS := length_of_over_budget h3
  unfold reduceContent
  simp only [h1, h2, h3, and_self, if_true]
  refine ⟨by simp, ?_⟩
  rw [string_length_append, length_mk, List.length_take]
  have hd : (statusContent st).data.length = (statusContent st).length := rfl
  have hm : truncMarker.length = 16 := rfl
  unfold MAX_CHARS MAX_TOKENS at hlen ⊢
  omega

/-- A string with strictly more than `MAX_CHARS` characters is estimated
over the token budget. -/
theorem over_budget_of_length {s : String} (h : s.length > MAX_CHARS) :
    estimateTokens s > MAX_TOKENS := by
  unfold estimateTokens MAX_TOKENS
  unfold MAX_CHARS MAX_TOKENS at h
  omega

theorem ne_empty_of_length_pos {s : String} (h : 0 < s.length) : s ≠ "" := by
  intro he
  rw [he] at h
  simp at h

/-- Evaluation of the status listing for a single modified file (no
over-30 suffix). -/
theorem statusContent_single_modified (m : String) (hne : "Modified: " ++ m ≠ "") :
    statusContent ⟨[m], [], [], 1⟩ = "Modified: " ++ m := by
  unfold statusContent
  simp [joinComma, joinNl, hne]

/-- Witness for C5: a diff, a summary and a status listing all far over the
budget (each built from a 500,000-character string). -/
theorem claim5_witness :
    (reduceContent (String.mk (List.replicate 500000 'a'))
        (Except.ok [⟨String.mk (List.replicate 500000 'a'), 1, 2⟩])
        (Except.ok ⟨[String.mk (List.replicate 500000 'a')], [], [], 1⟩)).2 =
      Strategy.truncated ∧
    (reduceContent (String.mk (List.replicate 500000 'a'))
        (Except.ok [⟨String.mk (List.replicate 500000 'a'), 1, 2⟩])
        (Except.ok ⟨[String.mk (List.replicate 500000 'a')], [], [], 1⟩)).1.length =
      (MAX_TOKENS * 4 - 1000) + truncMarker.length := by
  have hbig : (String.mk (List.replicate 500000 'a')).length = 500000 := by
    rw [length_mk, List.length_replicate]
  apply claim5_reducer_truncated_length
  · apply over_budget_of_length
    rw [hbig]; unfold MAX_CHARS MAX_TOKENS; omega
  · apply over_budget_of_length
    unfold summaryContent
    simp only [List.map_cons, List.map_nil, joinNl, string_length_append]
    rw [hbig]; unfold MAX_CHARS MAX_TOKENS; omega
  · apply over_budget_of_length
    have hne : ("Modified: " ++ String.mk (List.replicate 500000 'a')) ≠ "" := by
      apply ne_empty_of_length_pos
      rw [string_length_append, hbig]; omega
    rw [statusContent_single_modified _ hne, string_length_append, hbig]
    unfold MAX_CHARS MAX_TOKENS
    omega

/-! ## C10 -/

/-- C10: a provider preference outside `{auto, none, gemini, openai, groq}`
falls through `resolveProvider` to the auto-detection branch, so the chain
is the single first-configured backend (preference order gemini, openai,
groq) followed by the local fallback — or just the local fallback when
nothing is configured.  In particular an unrecognized name with a
configured credential is NOT resolved to local-only the way a
recognized-but-unconfigured provider is. -/
theorem claim10_unrecognized_preference (env : Env) (pref : String)
    (h1 : pref ≠ "auto") (h2 : pref ≠ "none") (h3 : pref ≠ "gemini")
    (h4 : pref ≠ "openai") (h5 : pref ≠ "groq") :
    buildProviderChain env pref =
      (if env.geminiKey then [Provider.gemini, Provider.localHeuristic]
       else if env.openaiKey then [Provider.openai, Provider.localHeuristic]
       else if env.groqKey then [Provider.groq, Provider.localHeuristic]
       else [Provider.localHeuristic]) := by
  unfold buildProviderChain resolveProvider
  rw [if_pos (And.intro h1 h2), if_neg h2, if_neg h4, if_neg h3, if_neg h5]
  rcases env with ⟨g, o, q⟩
  cases g <;> cases o <;> cases q <;> rfl

/-- Witness for C10: misspelled preference `"gemeni"` with an OpenAI
credential configured resolves to `[openai, local]`. -/
theorem claim10_witness :
    buildProviderChain ⟨false, true, false⟩ "gemeni" =
      [Provider.openai, Provider.localHeuristic] := by
  have h := claim10_unrecognized_preference ⟨false, true, false⟩ "gemeni"
    (by decide) (by decide) (by decide) (by decide) (by decide)
  simpa using h

/-! ## C6 -/

/-- The spec's classification rule, modelled from its words (§4.3): the
message is derived "purely from counts of added/modified/deleted files,
classifying the change as `feat` (new files only), `chore` (deletions only
or mixed)" (keyword-based `test`/`docs` cases aside). -/
def specClassifyByFileCounts (added modified deleted : Nat) : String :=
  if 0 < added ∧ modified = 0 ∧ deleted = 0 then "feat" else "chore"

/-- A diff adding exactly one new file and touching nothing else. -/
def newFileDiff : String :=
  "diff --git a/app.js b/app.js\nnew file mode 100644\n--- /dev/null\n+++ b/app.js\n@@ -0,0 +1 @@\n+export function foo(){}"

/-- C6 counterexample to the claim's mechanism clause ("the classification
is derived from counts of added/modified/deleted files as the spec
states"): for a diff whose file counts are 1 added / 0 modified / 0
deleted, the spec's file-count rule yields `feat`, but the code classifies
by `'+'`/`'-'` line counts (here 2 and 1: the `+++`/`---` header lines
count too, and 2 > 1·2 fails), producing the default `chore` subject. -/
theorem claim6_counterexample :
    specClassifyByFileCounts 1 0 0 = "feat" ∧
    generateLocalHeuristic newFileDiff {conventional := true} = "chore: update files" := by
  constructor
  · rfl
  · decide

/-- C6 (amended): the scenario itself holds — any diff with 25 lines
starting with `'-'`, 2 lines starting with `'+'` and a single
`diff --git` header is classified `chore` with the removal subject — but
the classification is computed from the added/removed *line* counts of the
diff text (with the file count only selecting the subject wording), not
from counts of added/modified/deleted files. -/
theorem claim6_amended_chore_removal (diff : String) (opts : GenOptions)
    (hdel : ((splitOnNl diff.data).filter (fun l => listStartsWith ['-'] l)).length = 25)
    (hadd : ((splitOnNl diff.data).filter (fun l => listStartsWith ['+'] l)).length = 2)
    (hfiles : countOccur "diff --git".data diff.data = 1) :
    generateLocalHeuristic diff opts =
      (if opts.conventional then "chore: remove unused code"
       else "Remove unused code") := by
  unfold generateLocalHeuristic
  simp only [hdel, hadd, hfiles]
  norm_num
  cases opts.conventional <;> rfl

/-- A concrete single-file diff with 25 `'-'` lines and 2 `'+'` lines. -/
def removalDiff : String :=
  "diff --git a/f.js b/f.js\n--- a/f.js\n+++ b/f.js\n-x0\n-x1\n-x2\n-x3\n-x4\n-x5\n-x6\n-x7\n-x8\n-x9\n-x10\n-x11\n-x12\n-x13\n-x14\n-x15\n-x16\n-x17\n-x18\n-x19\n-x20\n-x21\n-x22\n-x23\n+y"

/-- Witness for the amended C6 at `removalDiff`. -/
theorem claim6_witness :
    generateLocalHeuristic removalDiff {conventional := true} =
      "chore: remove unused code" := by
  have h := claim6_amended_chore_removal removalDiff {conventional := true}
    (by decide) (by decide) (by decide)
  simpa using h

/-! ## C9 -/

/-- The two operations other components perform on the response cache. -/
inductive CacheOp where
  | set (k : CacheKeyData) (result : String) (usedLocal : Bool) (now : Nat)
  | get (k : CacheKeyData)

/-- One cache operation: `setCache` mutates the map, `getFromCache` only
calls `Map.prototype.get`, which never reorders or modifies entries. -/
def applyCacheOp (cfg : Config) (cache : Cache) : CacheOp → Cache
  | CacheOp.set k r u t => setCache cfg cache k r u t
  | CacheOp.get _ => cache

/-- Run a sequence of cache operations from a starting state. -/
def runCacheOps (cfg : Config) : List CacheOp → Cache → Cache
  | [], c => c
  | op :: ops, c => runCacheOps cfg ops (applyCacheOp cfg c op)

/-- The keys of the cache in insertion order. -/
def cacheKeys (m : Cache) : List CacheKeyData := m.map Prod.fst

theorem mapGet_mapSet_self (m : Cache) (k : CacheKeyData) (v : CacheEntry) :
    mapGet (mapSet m k v) k = some v := by
  induction m with
  | nil => simp [mapSet, mapGet]
  | cons p t ih =>
    rw [mapSet]
    split
    · rw [mapGet]
      simp [*]
    · rw [mapGet]
      split
      · simp_all
      · exact ih

theorem length_mapSet_le (m : Cache) (k : CacheKeyData) (v : CacheEntry) :
    (mapSet m k v).length ≤ m.length + 1 := by
  induction m with
  | nil => simp [mapSet]
  | cons p t ih =>
    rw [mapSet]
    split
    · simp
    · simp only [List.length_cons]
      omega

theorem mapSet_of_not_mem (m : Cache) (k : CacheKeyData) (v : CacheEntry)
    (h : k ∉ cacheKeys m) : mapSet m k v = m ++ [(k, v)] := by
  induction m with
  | nil => simp [mapSet]
  | cons p t ih =>
    unfold cacheKeys at h ih
    simp only [List.map_cons, List.mem_cons] at h
    push_neg at h
    rw [mapSet]
    split
    · exact absurd (by simp_all) h.1.symm
    · rw [ih h.2]
      simp

theorem setCache_length_le (cfg : Config) (st : Cache) (k : CacheKeyData)
    (r : String) (u : Bool) (t : Nat) (h : st.length ≤ maxCacheSize) :
    (setCache cfg st k r u t).length ≤ maxCacheSize := by
  unfold setCache
  cases hc : cfg.cacheEnabled with
  | false => simpa [hc] using h
  | true =>
    simp only [hc, Bool.not_true, Bool.false_eq_true, if_false]
    by_cases hge : st.length ≥ maxCacheSize
    · rw [if_pos hge]
      match st with
      | [] =>
        show (mapSet [] k ⟨r, u, t⟩).length ≤ maxCacheSize
        simp [mapSet]
        unfold maxCacheSize
        omega
      | (k0, e0) :: tail =>
        show (mapSet (mapDelete ((k0, e0) :: tail) k0) k ⟨r, u, t⟩).length ≤
          maxCacheSize
        have hdel : mapDelete ((k0, e0) :: tail) k0 = tail := by simp [mapDelete]
        rw [hdel]
        have := length_mapSet_le tail k ⟨r, u, t⟩
        simp only [List.length_cons] at h
        unfold maxCacheSize at h ⊢
        omega
    · rw [if_neg hge]
      show (mapSet st k ⟨r, u, t⟩).length ≤ maxCacheSize
      have := length_mapSet_le st k ⟨r, u, t⟩
      unfold maxCacheSize at hge ⊢
      omega

theorem runCacheOps_length_le (cfg : Config) (ops : List CacheOp) (st : Cache)
    (h : st.length ≤ maxCacheSize) :
    (runCacheOps cfg ops st).length ≤ maxCacheSize := by
  induction ops generalizing st with
  | nil => exact h
  | cons op ops ih =>
    rw [runCacheOps]
    apply ih
    cases op with
    | set k r u t => exact setCache_length_le cfg st k r u t h
    | get k => exact h

/-- C9: (1) starting from the empty cache, after any sequence of cache
operations the map holds at most `maxCacheSize` (100) entries; (2) an
insertion of a fresh key performed while the cache is at capacity evicts
exactly the oldest-inserted entry — the new key list is the old one minus
its head, with the fresh key appended — and the size stays at capacity;
(3) a read never modifies the cache, so insertion order is unaffected by
reads (no LRU promotion). -/
theorem claim9_cache_capacity_eviction :
    (∀ cfg ops, (runCacheOps cfg ops []).length ≤ maxCacheSize) ∧
    (∀ cfg (st : Cache) k r u t, cfg.cacheEnabled = true →
      st.length = maxCacheSize → k ∉ cacheKeys st →
      cacheKeys (setCache cfg st k r u t) = (cacheKeys st).tail ++ [k] ∧
      (setCache cfg st k r u t).length = maxCacheSize) ∧
    (∀ cfg st k, applyCacheOp cfg st (CacheOp.get k) = st) := by
  refine ⟨fun cfg ops => runCacheOps_length_le cfg ops [] (by simp), ?_, fun _ _ _ => rfl⟩
  intro cfg st k r u t hen hlen hmem
  match st with
  | [] => unfold maxCacheSize at hlen; simp at hlen
  | (k0, e0) :: tail =>
    unfold setCache
    rw [if_neg (by simp [hen]), if_pos (by omega)]
    have hdel : mapDelete ((k0, e0) :: tail) k0 = tail := by simp [mapDelete]
    show cacheKeys (mapSet (mapDelete ((k0, e0) :: tail) k0) k ⟨r, u, t⟩) =
        (cacheKeys ((k0, e0) :: tail)).tail ++ [k] ∧
      (mapSet (mapDelete ((k0, e0) :: tail) k0) k ⟨r, u, t⟩).length = maxCacheSize
    rw [hdel]
    unfold cacheKeys at hmem ⊢
    simp only [List.map_cons, List.mem_cons] at hmem
    push_neg at hmem
    rw [mapSet_of_not_mem tail k ⟨r, u, t⟩ (by unfold cacheKeys; exact hmem.2)]
    simp only [List.map_append, List.map_cons, List.map_nil, List.tail_cons,
      List.length_append, List.length_cons, List.length_nil]
    simp only [List.length_cons] at hlen
    exact ⟨by simp, by omega⟩

/-- A concrete full cache: 100 entries with pairwise distinct keys. -/
def fullCache : Cache :=
  (List.range 100).map
    (fun i => (⟨String.mk (List.replicate i 'a'), false, false⟩, ⟨"m", false, 0⟩))

/-- Witness for C9 part (2): inserting a fresh key into the full cache
drops the oldest key and appends the new one, keeping exactly 100
entries. -/
theorem claim9_witness :
    cacheKeys (setCache ⟨true⟩ fullCache ⟨"b", false, false⟩ "msg" true 7) =
      (cacheKeys fullCache).tail ++ [⟨"b", false, false⟩] ∧
    (setCache ⟨true⟩ fullCache ⟨"b", false, false⟩ "msg" true 7).length =
      maxCacheSize :=
  claim9_cache_capacity_eviction.2.1 ⟨true⟩ fullCache ⟨"b", false, false⟩ "msg" true 7
    rfl (by decide) (by decide)


/-! ## Lemmas about the generation entry point -/

theorem data_eq_nil_iff (s : String) : s.data = [] ↔ s = "" := by
  constructor
  · intro h
    rw [← mk_data s, h]
  · intro h
    rw [h]

theorem mk_ne_empty {l : List Char} (h : l ≠ []) : String.mk l ≠ "" := by
  intro he
  exact h (congrArg String.data he)

theorem capitalizeFirst_ne_empty {s : String} (h : s ≠ "") :
    capitalizeFirst s ≠ "" := by
  unfold capitalizeFirst
  match hd : s.data with
  | [] => exact absurd ((data_eq_nil_iff s).mp hd) h
  | c :: cs => exact mk_ne_empty (by simp)

/-- The normalizer never returns the empty string: an empty subject is
replaced by the `'Update project code'` default. -/
theorem cleanCommitMessage_ne_empty (s : String) (opts : CleanOpts) :
    cleanCommitMessage s opts ≠ "" := by
  have hsubne : ∀ (X : List Char),
      (if X.isEmpty then "Update project code".data else X) ≠ [] := by
    intro X
    by_cases hX : X.isEmpty
    · simp [hX]
    · rw [if_neg hX]
      intro he
      exact hX (by simp [he])
  unfold cleanCommitMessage
  split
  · decide
  · dsimp only
    split
    · exact mk_ne_empty (hsubne _)
    · split
      · exact mk_ne_empty (hsubne _)
      · apply mk_ne_empty
        intro hc
        have := congrArg List.length hc
        simp at this

/-- The local heuristic never returns the empty string. -/
theorem generateLocalHeuristic_ne_empty (diff : String) (opts : GenOptions) :
    generateLocalHeuristic diff opts ≠ "" := by
  unfold generateLocalHeuristic
  dsimp only
  cases hc : opts.conventional with
  | true =>
    simp only [if_true]
    apply ne_empty_of_length_pos
    rw [string_length_append, string_length_append]
    have h2 : (": " : String).length = 2 := rfl
    omega
  | false =>
    simp only [Bool.false_eq_true, if_false]
    apply capitalizeFirst_ne_empty
    split
    · split
      · decide
      · apply ne_empty_of_length_pos
        rw [string_length_append, string_length_append]
        have h16 : ("add features to " : String).length = 16 := rfl
        omega
    · split
      · split
        · decide
        · apply ne_empty_of_length_pos
          rw [string_length_append, string_length_append]
          have h9 : ("clean up " : String).length = 9 := rfl
          omega
      · split
        · decide
        · split
          · decide
          · decide

/-- Unfolding equation: empty chain. -/
theorem runChain_nil (cfg : Config) (oracle : Oracle) (now : Nat) (diff : String)
    (opts : GenOptions) (key : CacheKeyData) (cache : Cache) :
    runChain cfg oracle now diff opts key [] cache =
      (⟨"Update project files", true⟩,
        setCache cfg cache key "Update project files" true now, []) := rfl

/-- Unfolding equation: local heuristic at the head of the chain. -/
theorem runChain_cons_local (cfg : Config) (oracle : Oracle) (now : Nat)
    (diff : String) (opts : GenOptions) (key : CacheKeyData)
    (rest : List Provider) (cache : Cache) :
    runChain cfg oracle now diff opts key (Provider.localHeuristic :: rest) cache =
      (⟨generateLocalHeuristic diff opts, true⟩,
        setCache cfg cache key (generateLocalHeuristic diff opts) true now, []) := rfl

/-- Unfolding equation: a non-local provider at the head of the chain that
returns text. -/
theorem runChain_cons_remote_ok (cfg : Config) (oracle : Oracle) (now : Nat)
    (diff : String) (opts : GenOptions) (key : CacheKeyData)
    (p : Provider) (rest : List Provider) (cache : Cache) (text : String)
    (hp : p ≠ Provider.localHeuristic)
    (htext : generateWithProvider oracle p
      (buildPrompt diff opts.conventional opts.body) opts = Except.ok text) :
    runChain cfg oracle now diff opts key (p :: rest) cache =
      (⟨cleanCommitMessage text ⟨opts.body⟩, false⟩,
       setCache cfg cache key (cleanCommitMessage text ⟨opts.body⟩) false now,
       [p]) := by
  cases p with
  | localHeuristic => exact absurd rfl hp
  | gemini => simp only [runChain, htext]
  | openai => simp only [runChain, htext]
  | groq => simp only [runChain, htext]
  | none => simp only [runChain, htext]

/-- Unfolding equation: a non-local provider at the head of the chain that
throws. -/
theorem runChain_cons_remote_error (cfg : Config) (oracle : Oracle) (now : Nat)
    (diff : String) (opts : GenOptions) (key : CacheKeyData)
    (p : Provider) (rest : List Provider) (cache : Cache) (e : String)
    (hp : p ≠ Provider.localHeuristic)
    (herr : generateWithProvider oracle p
      (buildPrompt diff opts.conventional opts.body) opts = Except.error e) :
    runChain cfg oracle now diff opts key (p :: rest) cache =
      ((runChain cfg oracle now diff opts key rest cache).1,
       (runChain cfg oracle now diff opts key rest cache).2.1,
       p :: (runChain cfg oracle now diff opts key rest cache).2.2) := by
  cases p with
  | localHeuristic => exact absurd rfl hp
  | gemini => simp only [runChain, herr]
  | openai => simp only [runChain, herr]
  | groq => simp only [runChain, herr]
  | none => simp only [runChain, herr]

/-- Every exit of the provider loop returns a nonempty message. -/
theorem runChain_message_ne_empty (cfg : Config) (oracle : Oracle) (now : Nat)
    (diff : String) (opts : GenOptions) (key : CacheKeyData) :
    ∀ (chain : List Provider) (cache : Cache),
      (runChain cfg oracle now diff opts key chain cache).1.message ≠ "" := by
  intro chain
  induction chain with
  | nil =>
    intro cache
    rw [runChain_nil]
    simp
  | cons p rest ih =>
    intro cache
    by_cases hp : p = Provider.localHeuristic
    · subst hp
      rw [runChain_cons_local]
      exact generateLocalHeuristic_ne_empty diff opts
    · cases hres : generateWithProvider oracle p
          (buildPrompt diff opts.conventional opts.body) opts with
      | ok text =>
        rw [runChain_cons_remote_ok cfg oracle now diff opts key p rest cache text hp hres]
        exact cleanCommitMessage_ne_empty text ⟨opts.body⟩
      | error e =>
        rw [runChain_cons_remote_error cfg oracle now diff opts key p rest cache e hp hres]
        exact ih cache

theorem getFromCache_enabled (cfg : Config) (hen : cfg.cacheEnabled = true)
    (c : Cache) (k : CacheKeyData) : getFromCache cfg c k = mapGet c k := by
  unfold getFromCache
  simp [hen]

theorem mapGet_setCache_self (cfg : Config) (cache : Cache) (k : CacheKeyData)
    (r : String) (u : Bool) (now : Nat) (hen : cfg.cacheEnabled = true) :
    mapGet (setCache cfg cache k r u now) k = some ⟨r, u, now⟩ := by
  unfold setCache
  rw [if_neg (by simp [hen])]
  exact mapGet_mapSet_self _ k _

/-- Every exit of the provider loop (with caching enabled) leaves an entry
for the request key holding exactly the returned message, the returned
`usedLocal` flag, and the current time as timestamp. -/
theorem runChain_caches_result (cfg : Config) (oracle : Oracle) (now : Nat)
    (diff : String) (opts : GenOptions) (key : CacheKeyData)
    (hen : cfg.cacheEnabled = true) :
    ∀ (chain : List Provider) (cache : Cache),
      mapGet (runChain cfg oracle now diff opts key chain cache).2.1 key =
        some ⟨(runChain cfg oracle now diff opts key chain cache).1.message,
          (runChain cfg oracle now diff opts key chain cache).1.usedLocal, now⟩ := by
  intro chain
  induction chain with
  | nil =>
    intro cache
    rw [runChain_nil]
    exact mapGet_setCache_self cfg cache key _ _ now hen
  | cons p rest ih =>
    intro cache
    by_cases hp : p = Provider.localHeuristic
    · subst hp
      rw [runChain_cons_local]
      exact mapGet_setCache_self cfg cache key _ _ now hen
    · cases hres : generateWithProvider oracle p
          (buildPrompt diff opts.conventional opts.body) opts with
      | ok text =>
        rw [runChain_cons_remote_ok cfg oracle now diff opts key p rest cache text hp hres]
        exact mapGet_setCache_self cfg cache key _ _ now hen
      | error e =>
        rw [runChain_cons_remote_error cfg oracle now diff opts key p rest cache e hp hres]
        exact ih cache

/-- A call whose cache lookup misses runs the provider chain. -/
theorem generateCommitMessage_of_miss (cfg : Config) (env : Env) (oracle : Oracle)
    (now : Nat) (diff : String) (opts : GenOptions) (cache : Cache)
    (hmiss : getFromCache cfg cache
      (getCacheKey diff opts.conventional opts.body) = Option.none) :
    generateCommitMessage cfg env oracle now diff opts cache =
      runChain cfg oracle now diff opts (getCacheKey diff opts.conventional opts.body)
        (buildProviderChain env opts.provider) cache := by
  unfold generateCommitMessage
  dsimp only
  rw [hmiss]

/-- A call that hits a fresh cache entry returns it unchanged: same
message, same cache, no backend invoked. -/
theorem generateCommitMessage_of_hit (cfg : Config) (env : Env) (oracle : Oracle)
    (now : Nat) (diff : String) (opts : GenOptions) (cache : Cache) (e : CacheEntry)
    (hget : getFromCache cfg cache
      (getCacheKey diff opts.conventional opts.body) = some e)
    (hfresh : now - e.timestamp < 3600000) :
    generateCommitMessage cfg env oracle now diff opts cache =
      (⟨e.result, e.usedLocal⟩, cache, []) := by
  unfold generateCommitMessage
  dsimp only
  rw [hget]
  dsimp only
  rw [if_pos hfresh]

/-- A call that finds only a stale cache entry re-runs the provider chain. -/
theorem generateCommitMessage_of_stale (cfg : Config) (env : Env) (oracle : Oracle)
    (now : Nat) (diff : String) (opts : GenOptions) (cache : Cache) (e : CacheEntry)
    (hget : getFromCache cfg cache
      (getCacheKey diff opts.conventional opts.body) = some e)
    (hstale : ¬ now - e.timestamp < 3600000) :
    generateCommitMessage cfg env oracle now diff opts cache =
      runChain cfg oracle now diff opts (getCacheKey diff opts.conventional opts.body)
        (buildProviderChain env opts.provider) cache := by
  unfold generateCommitMessage
  dsimp only
  rw [hget]
  dsimp only
  rw [if_neg hstale]

/-! ## C1 -/

/-- C1: the generation entry point is total by construction (it is a plain
function into `GenResult × Cache × List Provider`; all backend exceptions
are values of the oracle's `Except` that the chain catches), its message is
never empty, and — when no backend credential is configured and the
provider preference is `"auto"` — the result is produced by the local
heuristic: `usedLocal = true` and no backend is invoked. -/
theorem claim1_totality_and_local_fallback (cfg : Config) (env : Env)
    (oracle : Oracle) (now : Nat) (diff : String) (opts : GenOptions) :
    (generateCommitMessage cfg env oracle now diff opts []).1.message ≠ "" ∧
    (env.geminiKey = false → env.openaiKey = false → env.groqKey = false →
      opts.provider = "auto" →
      (generateCommitMessage cfg env oracle now diff opts []).1.usedLocal = true ∧
      (generateCommitMessage cfg env oracle now diff opts []).2.2 = []) := by
  have hmiss : getFromCache cfg []
      (getCacheKey diff opts.conventional opts.body) = Option.none := by
    unfold getFromCache mapGet
    split <;> rfl
  have hgen := generateCommitMessage_of_miss cfg env oracle now diff opts [] hmiss
  constructor
  · rw [hgen]
    exact runChain_message_ne_empty cfg oracle now diff opts _ _ []
  · intro hg ho hq hp
    have hchain : buildProviderChain env opts.provider = [Provider.localHeuristic] := by
      rw [hp]
      rcases env with ⟨g, o, q⟩
      simp only at hg ho hq
      subst hg
      subst ho
      subst hq
      rfl
    rw [hgen, hchain, runChain_cons_local]
    exact ⟨rfl, rfl⟩

/-- Witness for C1: no credentials, `provider = "auto"` (the default). -/
theorem claim1_witness :
    (generateCommitMessage ⟨true⟩ ⟨false, false, false⟩
        (fun _ _ _ => Except.error "no creds") 0 "abc" {} []).1.message ≠ "" ∧
    (generateCommitMessage ⟨true⟩ ⟨false, false, false⟩
        (fun _ _ _ => Except.error "no creds") 0 "abc" {} []).1.usedLocal = true := by
  have h := claim1_totality_and_local_fallback ⟨true⟩ ⟨false, false, false⟩
    (fun _ _ _ => Except.error "no creds") 0 "abc" {}
  exact ⟨h.1, (h.2 rfl rfl rfl rfl).1⟩

/-! ## C2 -/

/-- C2: with caching enabled, a second call with identical content and
identical `conventional`/`body` options strictly less than one hour after
a first (cache-missing) call returns exactly the first call's result, with
the cache unchanged and no backend invoked; when the entry's age is one
hour or more it is treated as a miss and the provider chain is re-run. -/
theorem claim2_cache_freshness (cfg : Config) (env : Env) (oracle : Oracle)
    (t0 t1 : Nat) (diff : String) (opts : GenOptions) (cache0 : Cache)
    (hen : cfg.cacheEnabled = true)
    (hmiss : getFromCache cfg cache0
      (getCacheKey diff opts.conventional opts.body) = Option.none) :
    (t1 - t0 < 3600000 →
      generateCommitMessage cfg env oracle t1 diff opts
          (generateCommitMessage cfg env oracle t0 diff opts cache0).2.1 =
        ((generateCommitMessage cfg env oracle t0 diff opts cache0).1,
         (generateCommitMessage cfg env oracle t0 diff opts cache0).2.1, [])) ∧
    (3600000 ≤ t1 - t0 →
      generateCommitMessage cfg env oracle t1 diff opts
          (generateCommitMessage cfg env oracle t0 diff opts cache0).2.1 =
        runChain cfg oracle t1 diff opts (getCacheKey diff opts.conventional opts.body)
          (buildProviderChain env opts.provider)
          (generateCommitMessage cfg env oracle t0 diff opts cache0).2.1) := by
  have hgen1 := generateCommitMessage_of_miss cfg env oracle t0 diff opts cache0 hmiss
  have hstore := runChain_caches_result cfg oracle t0 diff opts
    (getCacheKey diff opts.conventional opts.body) hen
    (buildProviderChain env opts.provider) cache0
  rw [← hgen1] at hstore
  have hget2 : getFromCache cfg
      (generateCommitMessage cfg env oracle t0 diff opts cache0).2.1
      (getCacheKey diff opts.conventional opts.body) =
      some ⟨(generateCommitMessage cfg env oracle t0 diff opts cache0).1.message,
        (generateCommitMessage cfg env oracle t0 diff opts cache0).1.usedLocal, t0⟩ := by
    rw [getFromCache_enabled cfg hen]
    exact hstore
  constructor
  · intro hfresh
    rw [generateCommitMessage_of_hit cfg env oracle t1 diff opts _ _ hget2 hfresh]
  · intro hstale
    exact generateCommitMessage_of_stale cfg env oracle t1 diff opts _ _ hget2
      (by simpa using hstale)

/-- Witness for C2 at concrete times 0 and 10 (within the window). -/
theorem claim2_witness :
    generateCommitMessage ⟨true⟩ ⟨false, false, false⟩
        (fun _ _ _ => Except.error "down") 10 "abc" {}
        (generateCommitMessage ⟨true⟩ ⟨false, false, false⟩
          (fun _ _ _ => Except.error "down") 0 "abc" {} []).2.1 =
      ((generateCommitMessage ⟨true⟩ ⟨false, false, false⟩
          (fun _ _ _ => Except.error "down") 0 "abc" {} []).1,
       (generateCommitMessage ⟨true⟩ ⟨false, false, false⟩
          (fun _ _ _ => Except.error "down") 0 "abc" {} []).2.1, []) :=
  (claim2_cache_freshness ⟨true⟩ ⟨false, false, false⟩
      (fun _ _ _ => Except.error "down") 0 10 "abc" {} [] rfl rfl).1 (by decide)

/-! ## C3 -/

/-- C3: strict in-order short-circuit of the provider chain.  With the auto
chain consisting of two configured backends and the local terminal, if the
first backend throws on every call and the second returns `txt`, then the
entry point returns the normalized `txt` marked `usedLocal = false`, and
the invocation trace is exactly `[p1, p2]`: the first backend was invoked
once (never retried) and the second exactly once. -/
theorem claim3_chain_shortcircuit (cfg : Config) (env : Env) (oracle : Oracle)
    (now : Nat) (diff : String) (opts : GenOptions) (cache : Cache)
    (p1 p2 : Provider) (txt err : String)
    (hchain : buildProviderChain env opts.provider = [p1, p2, Provider.localHeuristic])
    (hp1 : p1 = Provider.gemini ∨ p1 = Provider.openai ∨ p1 = Provider.groq)
    (hp2 : p2 = Provider.gemini ∨ p2 = Provider.openai ∨ p2 = Provider.groq)
    (hfail : ∀ m pr, oracle p1 m pr = Except.error err)
    (hok : ∀ m pr, oracle p2 m pr = Except.ok txt)
    (hmiss : getFromCache cfg cache
      (getCacheKey diff opts.conventional opts.body) = Option.none) :
    generateCommitMessage cfg env oracle now diff opts cache =
      (⟨cleanCommitMessage txt ⟨opts.body⟩, false⟩,
       setCache cfg cache (getCacheKey diff opts.conventional opts.body)
         (cleanCommitMessage txt ⟨opts.body⟩) false now,
       [p1, p2]) := by
  have hp1ne : p1 ≠ Provider.localHeuristic := by
    rcases hp1 with h | h | h <;> subst h <;> decide
  have hp2ne : p2 ≠ Provider.localHeuristic := by
    rcases hp2 with h | h | h <;> subst h <;> decide
  have hgw1 : generateWithProvider oracle p1
      (buildPrompt diff opts.conventional opts.body) opts = Except.error err := by
    rcases hp1 with h | h | h <;> subst h <;> simp [generateWithProvider, hfail]
  have hgw2 : generateWithProvider oracle p2
      (buildPrompt diff opts.conventional opts.body) opts = Except.ok txt := by
    rcases hp2 with h | h | h <;> subst h <;> simp [generateWithProvider, hok]
  rw [generateCommitMessage_of_miss cfg env oracle now diff opts cache hmiss, hchain,
    runChain_cons_remote_error cfg oracle now diff opts _ p1 _ cache err hp1ne hgw1,
    runChain_cons_remote_ok cfg oracle now diff opts _ p2 _ cache txt hp2ne hgw2]

/-- Witness for C3: Gemini and OpenAI configured, Gemini always throwing,
OpenAI returning text. -/
theorem claim3_witness :
    generateCommitMessage ⟨true⟩ ⟨true, true, false⟩
        (fun p _ _ => match p with
          | Provider.gemini => Except.error "rate limited"
          | _ => Except.ok "Fix the parser") 5 "abc" {} [] =
      (⟨cleanCommitMessage "Fix the parser" ⟨false⟩, false⟩,
       setCache ⟨true⟩ [] (getCacheKey "abc" false false)
         (cleanCommitMessage "Fix the parser" ⟨false⟩) false 5,
       [Provider.gemini, Provider.openai]) :=
  claim3_chain_shortcircuit ⟨true⟩ ⟨true, true, false⟩
    (fun p _ _ => match p with
      | Provider.gemini => Except.error "rate limited"
      | _ => Except.ok "Fix the parser") 5 "abc" {} []
    Provider.gemini Provider.openai "Fix the parser" "rate limited"
    rfl (Or.inl rfl) (Or.inr (Or.inl rfl))
    (fun _ _ => rfl) (fun _ _ => rfl) rfl

/-! ## C8 -/

/-- C8: the cache fingerprint depends only on the first 1000 characters of
the pre-reduction change content plus the `conventional` and `body` option
fields.  Two requests agreeing on that data share one key even when their
`provider` or `model` (or any other) options differ — so within the
freshness window the second request is served the first one's cached
result, making no backend call, even against a different environment and
different backends. -/
theorem claim8_cache_key_prefix_options (d1 d2 : String) (o1 o2 : GenOptions)
    (hpre : d1.data.take 1000 = d2.data.take 1000)
    (hconv : o1.conventional = o2.conventional)
    (hbody : o1.body = o2.body) :
    getCacheKey d1 o1.conventional o1.body = getCacheKey d2 o2.conventional o2.body ∧
    (∀ (cfg : Config) (env1 env2 : Env) (oracle1 oracle2 : Oracle)
        (t0 t1 : Nat) (cache0 : Cache),
      cfg.cacheEnabled = true →
      getFromCache cfg cache0 (getCacheKey d1 o1.conventional o1.body) = Option.none →
      t1 - t0 < 3600000 →
      generateCommitMessage cfg env2 oracle2 t1 d2 o2
          (generateCommitMessage cfg env1 oracle1 t0 d1 o1 cache0).2.1 =
        ((generateCommitMessage cfg env1 oracle1 t0 d1 o1 cache0).1,
         (generateCommitMessage cfg env1 oracle1 t0 d1 o1 cache0).2.1, [])) := by
  have hkey : getCacheKey d1 o1.conventional o1.body =
      getCacheKey d2 o2.conventional o2.body := by
    unfold getCacheKey
    rw [hpre, hconv, hbody]
  refine ⟨hkey, ?_⟩
  intro cfg env1 env2 oracle1 oracle2 t0 t1 cache0 hen hmiss hfresh
  have hgen1 := generateCommitMessage_of_miss cfg env1 oracle1 t0 d1 o1 cache0 hmiss
  have hstore := runChain_caches_result cfg oracle1 t0 d1 o1
    (getCacheKey d1 o1.conventional o1.body) hen
    (buildProviderChain env1 o1.provider) cache0
  rw [← hgen1] at hstore
  have hget2 : getFromCache cfg
      (generateCommitMessage cfg env1 oracle1 t0 d1 o1 cache0).2.1
      (getCacheKey d2 o2.conventional o2.body) =
      some ⟨(generateCommitMessage cfg env1 oracle1 t0 d1 o1 cache0).1.message,
        (generateCommitMessage cfg env1 oracle1 t0 d1 o1 cache0).1.usedLocal, t0⟩ := by
    rw [getFromCache_enabled cfg hen, ← hkey]
    exact hstore
  exact generateCommitMessage_of_hit cfg env2 oracle2 t1 d2 o2 _ _ hget2 hfresh

/-- Witness for C8: two diffs sharing their first 1000 characters but
differing at position 1001, requested with different `provider`/`model`
options and different environments/backends. -/
theorem claim8_witness :
    generateCommitMessage ⟨true⟩ ⟨true, false, false⟩
        (fun _ _ _ => Except.ok "From gemini") 10
        (String.mk (List.replicate 1000 'a' ++ ['b']))
        {provider := "openai", model := "gpt-x"}
        (generateCommitMessage ⟨true⟩ ⟨false, false, false⟩
          (fun _ _ _ => Except.error "down") 0
          (String.mk (List.replicate 1000 'a')) {} []).2.1 =
      ((generateCommitMessage ⟨true⟩ ⟨false, false, false⟩
          (fun _ _ _ => Except.error "down") 0
          (String.mk (List.replicate 1000 'a')) {} []).1,
       (generateCommitMessage ⟨true⟩ ⟨false, false, false⟩
          (fun _ _ _ => Except.error "down") 0
          (String.mk (List.replicate 1000 'a')) {} []).2.1, []) := by
  have hpre : (String.mk (List.replicate 1000 'a')).data.take 1000 =
      (String.mk (List.replicate 1000 'a' ++ ['b'])).data.take 1000 := by
    show (List.replicate 1000 'a').take 1000 =
      (List.replicate 1000 'a' ++ ['b']).take 1000
    rw [List.take_append_of_le_length (by rw [List.length_replicate])]
  exact (claim8_cache_key_prefix_options
      (String.mk (List.replicate 1000 'a'))
      (String.mk (List.replicate 1000 'a' ++ ['b']))
      {} {provider := "openai", model := "gpt-x"}
      hpre rfl rfl).2
    ⟨true⟩ ⟨false, false, false⟩ ⟨true, false, false⟩
    (fun _ _ _ => Except.error "down") (fun _ _ _ => Except.ok "From gemini")
    0 10 [] rfl rfl (by decide)

/-! ## C7

The normalizer is not idempotent in general (see the counterexample), but
it is the identity on subjects already in fully-normalized form: nonempty,
single-line (containing no LineTerminator: LF, CR, U+2028 or U+2029),
starting with no whitespace / list / heading / numbered marker, free of
backticks, asterisks, tabs and emoji, with no two adjacent whitespace
characters and no trailing punctuation. -/

/-- No two adjacent JavaScript-whitespace characters. -/
def noDoubleWs : List Char → Bool
  | [] => true
  | [_] => true
  | c :: d :: rest => !(isJsWs c && isJsWs d) && noDoubleWs (d :: rest)

/-- A fully-normalized subject (a fixed point of the normalizer). -/
def isNormalizedSubject (s : String) : Bool :=
  match s.data with
  | [] => false
  | c :: cs =>
    !isJsWs c && !(c = '-' || c = '+' || c = '#') && !c.isDigit &&
    !isTrailPunct ((c :: cs).getLastD 'x') &&
    (c :: cs).all
      (fun d => !(isLineTerm d || d = '`' || d = '*' || d = '\t' || isEmoji d)) &&
    noDoubleWs (c :: cs)

theorem removeFencedAux_id {l : List Char} (h : '`' ∉ l) :
    removeFencedAux l 0 = l := by
  induction l with
  | nil => rfl
  | cons c cs ih =>
    rw [removeFencedAux]
    rw [if_neg ?hc]
    case hc =>
      intro hs
      rw [listStartsWith] at hs
      simp at hs
      exact h (List.mem_cons.mpr (Or.inl hs.1))
    rw [ih (fun hm => h (List.mem_cons_of_mem c hm))]

theorem removeInlineAux_id {l : List Char} (h : '`' ∉ l) :
    removeInlineAux l 0 = l := by
  induction l with
  | nil => rfl
  | cons c cs ih =>
    rw [removeInlineAux]
    rw [if_neg (fun hc => h (by simp [hc]))]
    rw [ih (fun hm => h (List.mem_cons_of_mem c hm))]

theorem removeBoldAux_id {l : List Char} (h : '*' ∉ l) :
    removeBoldAux l 0 = l := by
  induction l with
  | nil => rfl
  | cons c cs ih =>
    rw [removeBoldAux]
    rw [if_neg ?hc]
    case hc =>
      intro hs
      rw [listStartsWith] at hs
      simp at hs
      exact h (List.mem_cons.mpr (Or.inl hs.1))
    rw [ih (fun hm => h (List.mem_cons_of_mem c hm))]

theorem removeItalicAux_id {l : List Char} (h : '*' ∉ l) :
    removeItalicAux l 0 = l := by
  induction l with
  | nil => rfl
  | cons c cs ih =>
    rw [removeItalicAux]
    rw [if_neg (fun hc => h (by simp [hc]))]
    rw [ih (fun hm => h (List.mem_cons_of_mem c hm))]

theorem removeEmoji_id {l : List Char} (h : ∀ c ∈ l, isEmoji c = false) :
    removeEmoji l = l := by
  unfold removeEmoji
  rw [List.filter_eq_self]
  intro c hc
  simp [h c hc]

theorem collapseTabCrAux_id {l : List Char} (h : ∀ c ∈ l, c ≠ '\t' ∧ c ≠ '\r') :
    collapseTabCrAux l 0 = l := by
  induction l with
  | nil => rfl
  | cons c cs ih =>
    rw [collapseTabCrAux]
    have hc := h c (List.mem_cons_self c cs)
    rw [if_neg (by simp [hc.1, hc.2])]
    rw [ih (fun d hd => h d (List.mem_cons_of_mem c hd))]

theorem breakAtLineTerm_eq_none {l : List Char}
    (h : ∀ c ∈ l, isLineTerm c = false) : breakAtLineTerm l = none := by
  induction l with
  | nil => rfl
  | cons c cs ih =>
    rw [breakAtLineTerm]
    rw [if_neg (by simp [h c (List.mem_cons_self c cs)])]
    rw [ih (fun d hd => h d (List.mem_cons_of_mem c hd))]
    rfl

theorem splitOnNl_single {l : List Char} (h : '\n' ∉ l) :
    splitOnNl l = [l] := by
  induction l with
  | nil => rfl
  | cons c cs ih =>
    rw [splitOnNl]
    rw [if_neg (fun hc => h (by simp [hc]))]
    rw [ih (fun hm => h (List.mem_cons_of_mem c hm))]

theorem noDoubleWs_tail {c : Char} {cs : List Char}
    (h : noDoubleWs (c :: cs) = true) : noDoubleWs cs = true := by
  cases cs with
  | nil => rfl
  | cons d rest =>
    rw [noDoubleWs] at h
    exact (Bool.and_eq_true_iff.mp h).2

theorem collapseMultiWsAux_cons (c : Char) (cs : List Char) :
    collapseMultiWsAux (c :: cs) 0 =
      (if isJsWs c && (match cs with | d :: _ => isJsWs d | [] => false) then
        ' ' :: collapseMultiWsAux cs (cs.length - (cs.dropWhile isJsWs).length)
      else c :: collapseMultiWsAux cs 0) := rfl

theorem collapseMultiWsAux_id {l : List Char} (h : noDoubleWs l = true) :
    collapseMultiWsAux l 0 = l := by
  induction l with
  | nil => rfl
  | cons c cs ih =>
    rw [collapseMultiWsAux_cons]
    rw [if_neg ?hc]
    case hc =>
      intro hcc
      cases cs with
      | nil => simp at hcc
      | cons d rest =>
        rw [noDoubleWs] at h
        have := (Bool.and_eq_true_iff.mp h).1
        simp only [Bool.and_eq_true] at hcc
        simp [hcc.1, hcc.2] at this
    rw [ih (noDoubleWs_tail h)]

theorem stripBulletsAux_cons_true (c : Char) (cs : List Char) :
    stripBulletsAux (c :: cs) 0 true =
      (match (c :: cs).dropWhile isJsWs with
       | d :: rest =>
         if d = '-' || d = '*' || d = '+' then
           stripBulletsAux cs ((c :: cs).length - (rest.dropWhile isJsWs).length - 1)
             (isLineTerm ((rest.takeWhile isJsWs).getLastD 'x'))
         else
           match breakAtLineTerm (c :: cs) with
           | some (pre, _) => pre ++ stripBulletsAux cs (pre.length - 1) true
           | none => c :: cs
       | [] =>
         match breakAtLineTerm (c :: cs) with
         | some (pre, _) => pre ++ stripBulletsAux cs (pre.length - 1) true
         | none => c :: cs) := rfl

theorem stripBullets_id {c : Char} {cs : List Char} (hws : isJsWs c = false)
    (hc : (c = '-' || c = '*' || c = '+') = false)
    (hnl : ∀ d ∈ (c :: cs), isLineTerm d = false) :
    stripBullets (c :: cs) = c :: cs := by
  unfold stripBullets
  have hdw : (c :: cs).dropWhile isJsWs = c :: cs := by
    rw [List.dropWhile_cons, if_neg (by simp [hws])]
  rw [stripBulletsAux_cons_true, hdw]
  dsimp only
  rw [if_neg (by simp_all), breakAtLineTerm_eq_none hnl]

theorem stripNumbersAux_cons_true (c : Char) (cs : List Char) :
    stripNumbersAux (c :: cs) 0 true =
      (match ((c :: cs).dropWhile isJsWs).dropWhile Char.isDigit with
       | '.' :: rest =>
         if (((c :: cs).dropWhile isJsWs).takeWhile Char.isDigit).isEmpty then
           match breakAtLineTerm (c :: cs) with
           | some (pre, _) => pre ++ stripNumbersAux cs (pre.length - 1) true
           | none => c :: cs
         else
           stripNumbersAux cs ((c :: cs).length - (rest.dropWhile isJsWs).length - 1)
             (isLineTerm ((rest.takeWhile isJsWs).getLastD 'x'))
       | _ =>
         match breakAtLineTerm (c :: cs) with
         | some (pre, _) => pre ++ stripNumbersAux cs (pre.length - 1) true
         | none => c :: cs) := rfl

theorem stripNumbers_id {c : Char} {cs : List Char} (hws : isJsWs c = false)
    (hd : c.isDigit = false)
    (hnl : ∀ d ∈ (c :: cs), isLineTerm d = false) :
    stripNumbers (c :: cs) = c :: cs := by
  unfold stripNumbers
  have hdw : (c :: cs).dropWhile isJsWs = c :: cs := by
    rw [List.dropWhile_cons, if_neg (by simp [hws])]
  have hdd : (c :: cs).dropWhile Char.isDigit = c :: cs := by
    rw [List.dropWhile_cons, if_neg (by simp [hd])]
  have htd : (c :: cs).takeWhile Char.isDigit = [] := by
    rw [List.takeWhile_cons, if_neg (by simp [hd])]
  rw [stripNumbersAux_cons_true, hdw, hdd, htd]
  split
  · rw [if_pos (by simp), breakAtLineTerm_eq_none hnl]
  · rw [breakAtLineTerm_eq_none hnl]

theorem stripHashesAux_cons_true (c : Char) (cs : List Char) :
    stripHashesAux (c :: cs) 0 true =
      (match (c :: cs).dropWhile isJsWs with
       | d :: rest =>
         if d = '#' then
           stripHashesAux cs
             ((c :: cs).length -
               (((rest.dropWhile (fun e => e = '#'))).dropWhile isJsWs).length - 1)
             (isLineTerm (((rest.dropWhile (fun e => e = '#')).takeWhile isJsWs).getLastD 'x'))
         else
           match breakAtLineTerm (c :: cs) with
           | some (pre, _) => pre ++ stripHashesAux cs (pre.length - 1) true
           | none => c :: cs
       | [] =>
         match breakAtLineTerm (c :: cs) with
         | some (pre, _) => pre ++ stripHashesAux cs (pre.length - 1) true
         | none => c :: cs) := rfl

theorem stripHashes_id {c : Char} {cs : List Char} (hws : isJsWs c = false)
    (hc : (c = '#') = false)
    (hnl : ∀ d ∈ (c :: cs), isLineTerm d = false) :
    stripHashes (c :: cs) = c :: cs := by
  unfold stripHashes
  have hdw : (c :: cs).dropWhile isJsWs = c :: cs := by
    rw [List.dropWhile_cons, if_neg (by simp [hws])]
  rw [stripHashesAux_cons_true, hdw]
  dsimp only
  rw [if_neg (by simp_all), breakAtLineTerm_eq_none hnl]

theorem jsTrim_id {l : List Char} (hh : isJsWs (l.headD 'x') = false)
    (hl : isJsWs (l.getLastD 'x') = false) : jsTrim l = l := by
  unfold jsTrim
  cases l with
  | nil => rfl
  | cons c cs =>
    have h1 : (c :: cs).dropWhile isJsWs = c :: cs := by
      rw [List.dropWhile_cons, if_neg (by simp_all)]
    rw [h1]
    cases hr : (c :: cs).reverse with
    | nil => simp at hr
    | cons d ds =>
      have hd : d = (c :: cs).getLastD 'x' := by
        have := List.head?_reverse (c :: cs)
        rw [hr] at this
        rw [List.getLastD_eq_getLast?, ← this]
        rfl
      rw [List.dropWhile_cons, if_neg (by rw [hd]; simp_all)]
      rw [← hr, List.reverse_reverse]

theorem stripTrailing_id {l : List Char}
    (hl : isTrailPunct (l.getLastD 'x') = false) : stripTrailing l = l := by
  unfold stripTrailing
  cases l with
  | nil => rfl
  | cons c cs =>
    cases hr : (c :: cs).reverse with
    | nil => simp at hr
    | cons d ds =>
      have hd : d = (c :: cs).getLastD 'x' := by
        have := List.head?_reverse (c :: cs)
        rw [hr] at this
        rw [List.getLastD_eq_getLast?, ← this]
        rfl
      rw [List.dropWhile_cons, if_neg (by rw [hd]; simp_all)]
      rw [← hr, List.reverse_reverse]

/-- C7 counterexample: normalization is not idempotent.  The list-marker
regex `/^\s*[-*+]\s*/gm` consumes the marker character even when no
whitespace follows it, so `"-- hello"` normalizes to `"- hello"`, which a
second pass shortens again to `"hello"`. -/
theorem claim7_counterexample :
    cleanCommitMessage (cleanCommitMessage "-- hello" ⟨false⟩) ⟨false⟩ ≠
      cleanCommitMessage "-- hello" ⟨false⟩ := by decide

/-- C7 (amended): every already-normalized subject that additionally starts
with no list/number/heading-marker character, contains no line terminator
(so no multiline `^` anchor position exists inside it) and no residual
markdown trigger characters (`isNormalizedSubject`) is a fixed point of the
normalizer — so on that domain normalization is idempotent.  Full
idempotence fails (see `claim7_counterexample`). -/
theorem claim7_amended_normalized_fixed_point (s : String) (opts : CleanOpts)
    (h : isNormalizedSubject s = true) :
    cleanCommitMessage s opts = s := by
  unfold isNormalizedSubject at h
  match hd : s.data with
  | [] => rw [hd] at h; simp at h
  | c :: cs =>
    rw [hd] at h
    simp only [Bool.and_eq_true] at h
    obtain ⟨⟨⟨⟨⟨hws, hbul⟩, hdig⟩, htrail⟩, hall⟩, hnd⟩ := h
    have hws' : isJsWs c = false := by simpa using hws
    have hdig' : c.isDigit = false := by simpa using hdig
    have htrail' : isTrailPunct ((c :: cs).getLastD 'x') = false := by simpa using htrail
    have hbul' : c ≠ '-' ∧ c ≠ '+' ∧ c ≠ '#' := by
      simpa [and_assoc] using hbul
    have hall' : ∀ d ∈ c :: cs,
        isLineTerm d = false ∧ d ≠ '`' ∧ d ≠ '*' ∧ d ≠ '\t' ∧ isEmoji d = false := by
      intro d hdm
      have := List.all_eq_true.mp hall d hdm
      simpa [and_assoc] using this
    have hlt : ∀ d ∈ (c :: cs), isLineTerm d = false :=
      fun d hm => (hall' _ hm).1
    have hnl : '\n' ∉ (c :: cs) := by
      intro hm
      have := hlt _ hm
      simp [isLineTerm] at this
    have hbt : '`' ∉ (c :: cs) := fun hm => ((hall' _ hm).2.1) rfl
    have hst : '*' ∉ (c :: cs) := fun hm => ((hall' _ hm).2.2.1) rfl
    have htabcr : ∀ d ∈ (c :: cs), d ≠ '\t' ∧ d ≠ '\r' := by
      intro d hm
      refine ⟨(hall' _ hm).2.2.2.1, fun he => ?_⟩
      have := hlt _ hm
      rw [he] at this
      simp [isLineTerm] at this
    have hemo : ∀ d ∈ (c :: cs), isEmoji d = false :=
      fun d hm => (hall' _ hm).2.2.2.2
    have hcstar : c ≠ '*' := fun he => (hst (by simp [he]))
    have hbul3 : (c = '-' || c = '*' || c = '+') = false := by
      simp [hbul'.1, hcstar, hbul'.2.1]
    have hlast_ws : isJsWs ((c :: cs).getLastD 'x') = false := by
      unfold isTrailPunct at htrail'
      simp only [Bool.or_eq_false_iff] at htrail'
      exact htrail'.1.1.1.1.1
    have hne : s ≠ "" := by
      intro he
      rw [he] at hd
      simp at hd
    have e1 : removeFenced (c :: cs) = c :: cs := removeFencedAux_id hbt
    have e2 : removeInline (c :: cs) = c :: cs := removeInlineAux_id hbt
    have e3 : stripBullets (c :: cs) = c :: cs := stripBullets_id hws' hbul3 hlt
    have e4 : stripNumbers (c :: cs) = c :: cs := stripNumbers_id hws' hdig' hlt
    have e5 : stripHashes (c :: cs) = c :: cs :=
      stripHashes_id hws' (by simp [hbul'.2.2]) hlt
    have e6 : removeBold (c :: cs) = c :: cs := removeBoldAux_id hst
    have e7 : removeItalic (c :: cs) = c :: cs := removeItalicAux_id hst
    have e8 : removeEmoji (c :: cs) = c :: cs := removeEmoji_id hemo
    have e9 : collapseTabCr (c :: cs) = c :: cs := collapseTabCrAux_id htabcr
    have e10 : jsTrim (c :: cs) = c :: cs :=
      jsTrim_id (by simpa using hws') hlast_ws
    have e11 : collapseMultiWs (c :: cs) = c :: cs := collapseMultiWsAux_id hnd
    have e12 : stripTrailing (c :: cs) = c :: cs := stripTrailing_id htrail'
    unfold cleanCommitMessage
    rw [if_neg hne]
    dsimp only
    rw [hd, e1, e2, e3, e4, e5, e6, e7, e8, e9, e10, splitOnNl_single hnl]
    dsimp only [List.map]
    rw [e10]
    have hfil : List.filter (fun x => !x.isEmpty) [c :: cs] = [c :: cs] := by simp
    rw [hfil]
    dsimp only [List.headD]
    rw [e11, e12, e10]
    have hsubj : (if (c :: cs).isEmpty = true then "Update project code".data
        else c :: cs) = c :: cs := by simp
    rw [hsubj]
    cases hb : opts.body with
    | false =>
      simp only [hb, Bool.not_false, if_true]
      rw [← hd]
    | true =>
      simp only [hb, Bool.not_true, Bool.false_eq_true, if_false]
      dsimp only [List.drop, List.filter, joinLinesNl]
      rw [if_pos (by rfl : (Gims.jsTrim []).isEmpty = true), ← hd]

/-- Witness for the amended C7 at a typical normalized subject. -/
theorem claim7_witness :
    isNormalizedSubject "Fix bug in auth.js" = true ∧
    cleanCommitMessage "Fix bug in auth.js" ⟨false⟩ = "Fix bug in auth.js" :=
  ⟨by decide,
   claim7_amended_normalized_fixed_point "Fix bug in auth.js" ⟨false⟩ (by decide)⟩

end Gims
